import Mathlib

/-!
Verification of the LoRaWAN ADR (Adaptive Data Rate) network controller component
(`adr-component.h` / `adr-component.cc`).

Shallow embedding conventions:
* Gateway report lists (`EndDeviceStatus::GatewayList`) are modelled as `List ℚ` of the
  per-gateway received powers in dBm (gateway identifiers carry no information used by
  the component, and map iteration order is irrelevant to max/sum).
* The received packet list (`EndDeviceStatus::ReceivedPacketList`) is a
  `List (List ℚ)`, chronologically ordered with the most recent packet last;
  the C++ code iterates it from `rbegin()`.
* C++ `double` arithmetic is modelled exactly: dBm/dB quantities that stay rational
  are `ℚ`; the SNR conversion involves `log10` and is modelled over `ℝ` with
  `Real.logb 10`.
* `int` values are `ℤ`.  The C++ implicit `double → int` conversion (assignment of
  `transmissionPower` to `*newTxPower`) truncates toward zero and is modelled by
  `truncD`.
* Array reads and divisions that are undefined in C++ (out-of-bounds index,
  division by zero on an empty gateway list) are modelled by `Option`-valued
  variants returning `none` exactly on the undefined inputs.
-/

/-! ### Configuration constants (adr-component.h, lines 81-116) -/

/-- TX power aggregation policy: `true` = average over gateways (the source default,
`const bool tpAveraging = 1`). -/
def tpAveraging : Bool := true

/-- Number of previous packets to consider (`const uint8_t historyRange = 20`). -/
def historyRange : ℕ := 20

/-- SNR history policy: `true` = average over the window (the source default,
`const bool historyAveraging = 1`). -/
def historyAveraging : Bool := true

/-- SF lower limit (`const int min_spreadingFactor = 7`). -/
def min_spreadingFactor : ℤ := 7

/-- Minimum transmission power in dBm (`const int min_transmissionPower = 2`). -/
def min_transmissionPower : ℤ := 2

/-- Maximum transmission power in dBm (`const int max_transmissionPower = 14`). -/
def max_transmissionPower : ℤ := 14

/-- Device specific SNR margin in dB (`const int offset = 10`). -/
def offset : ℤ := 10

/-- Bandwidth in Hz (`const int B = 125000`). -/
def B : ℤ := 125000

/-- Noise figure in dB (`const int NF = 6`). -/
def NF : ℤ := 6

/-- The required-SNR table (`double treshold[6] = {-20.0, -17.5, -15.0, -12.5, -10.0, -7.5}`). -/
def treshold : List ℚ := [-20, -35/2, -15, -25/2, -10, -15/2]

/-- Checked read of `treshold[i]`: the C++ code performs the raw array access
`treshold[SfToDr(spreadingFactor)]` with no clamping, so any index outside `0..5`
is an out-of-bounds read (undefined behaviour), modelled as `none`. -/
def tresholdGet (i : ℤ) : Option ℚ :=
  if 0 ≤ i then treshold.get? i.toNat else none

/-! ### Pure helpers (adr-component.cc) -/

/-- Source: `int AdrComponent::SfToDr(int sf) { return sf - 7; }` (lines 175-178). -/
def SfToDr (sf : ℤ) : ℤ := sf - 7

/-- C++ `double → int` conversion (truncation toward zero), as in
`*newTxPower = transmissionPower;` where `newTxPower` is an `int` pointer. -/
def truncD (q : ℚ) : ℤ := if 0 ≤ q then ⌊q⌋ else ⌈q⌉

/-- Source: `double AdrComponent::TxPowerToSNR(double transmissionPower)` (lines 180-184):
`return transmissionPower + 174 - 10 * log10(B) - NF;`. -/
noncomputable def TxPowerToSNR (transmissionPower : ℝ) : ℝ :=
  transmissionPower + 174 - 10 * Real.logb 10 (B : ℝ) - (NF : ℝ)

/-- Source: `double AdrComponent::GetMaxTxFromGateways(GatewayList)` (lines 187-198):
a running maximum over the reported powers, initialized to `min_transmissionPower`. -/
def GetMaxTxFromGateways (gwList : List ℚ) : ℚ :=
  gwList.foldl (fun mx r => if mx < r then r else mx) (min_transmissionPower : ℚ)

/-- Source: `double AdrComponent::GetAverageTxFromGateways(GatewayList)` (lines 201-211):
`sum / gwList.size()` with no emptiness guard.  (the Lean division is total with `x / 0 = 0`;
the checked variant below records where the C++ division is actually undefined.) -/
def GetAverageTxFromGateways (gwList : List ℚ) : ℚ :=
  gwList.sum / (gwList.length : ℚ)

/-- Division-checked variant of `GetAverageTxFromGateways`: on an empty gateway list the
source computes `0.0 / 0`, an undefined (NaN) value, modelled as `none`.  There is no
fallback branch in the source. -/
def GetAverageTxFromGatewaysChecked (gwList : List ℚ) : Option ℚ :=
  if gwList.length = 0 then none
  else some (gwList.sum / (gwList.length : ℚ))

/-- Source: `double AdrComponent::GetReceivedPower(GatewayList)` (lines 213-219):
`if (tpAveraging) return GetAverageTxFromGateways(gwList);
 else return TxPowerToSNR(GetMaxTxFromGateways(gwList));`
The policy flag is the `tpAveraging` member constant, threaded here as a parameter
(`tpA`); the source default is `tpAveraging = true`. -/
noncomputable def GetReceivedPower (tpA : Bool) (gwList : List ℚ) : ℝ :=
  if tpA then ((GetAverageTxFromGateways gwList : ℚ) : ℝ)
  else TxPowerToSNR ((GetMaxTxFromGateways gwList : ℚ) : ℝ)

/-- The per-packet SNR value used by both history aggregators (lines 231 and 250):
`m_SNR = TxPowerToSNR(GetReceivedPower(it->second.gwList));`. -/
noncomputable def snrOfPacket (tpA : Bool) (gwList : List ℚ) : ℝ :=
  TxPowerToSNR (GetReceivedPower tpA gwList)

/-- The window of packets visited by the aggregation loops: starting from `rbegin()`
(most recent packet first) for `historyRange` iterations. -/
def window (packetList : List (List ℚ)) (hr : ℕ) : List (List ℚ) :=
  packetList.reverse.take hr

/-- Source: `double AdrComponent::GetMaxSNR(ReceivedPacketList, int historyRange)`
(lines 221-238): a running maximum of the per-packet SNR over the window,
initialized to `TxPowerToSNR(min_transmissionPower)`. -/
noncomputable def GetMaxSNR (tpA : Bool) (packetList : List (List ℚ)) (hr : ℕ) : ℝ :=
  (window packetList hr).foldl
    (fun mx p => if mx < snrOfPacket tpA p then snrOfPacket tpA p else mx)
    (TxPowerToSNR ((min_transmissionPower : ℤ) : ℝ))

/-- The loop body state of `GetAverageSNR` (lines 240-256): first component is the
accumulated `sum`, second is the variable `m_SNR`, overwritten on each iteration.
`m_SNR` is uninitialized in the source; the `0` initial value is never read when the
window is nonempty. -/
noncomputable def snrSumLoop (tpA : Bool) (w : List (List ℚ)) : ℝ × ℝ :=
  w.foldl (fun acc p => (acc.1 + snrOfPacket tpA p, snrOfPacket tpA p)) (0, 0)

/-- Source: `double AdrComponent::GetAverageSNR(ReceivedPacketList, int historyRange)`
(lines 240-256).  Note the source statement `return m_SNR / historyRange;`: it divides the
*last* per-packet SNR by the window size, not the accumulated `sum`. -/
noncomputable def GetAverageSNR (tpA : Bool) (packetList : List (List ℚ)) (hr : ℕ) : ℝ :=
  (snrSumLoop tpA (window packetList hr)).2 / (hr : ℝ)

/-- The history-aggregated SNR chosen by `historyAveraging` (lines 120-127). -/
noncomputable def historySNR (tpA hA : Bool) (packetList : List (List ℚ)) (hr : ℕ) : ℝ :=
  if hA then GetAverageSNR tpA packetList hr else GetMaxSNR tpA packetList hr

/-! ### The step policy (adr-component.cc lines 155-169) -/

/-- Source: `while (steps > 0 && spreadingFactor > min_spreadingFactor) { spreadingFactor--; steps--; }`
(lines 155-159). -/
def sfLoop (steps sf : ℤ) : ℤ × ℤ :=
  if h : 0 < steps ∧ min_spreadingFactor < sf then sfLoop (steps - 1) (sf - 1)
  else (steps, sf)
termination_by steps.toNat
decreasing_by
  have h1 := h.1
  omega

/-- Source: `while (steps > 0 && transmissionPower > min_transmissionPower)
{ transmissionPower -= 3; steps--; }` (lines 160-164). -/
def tpDecLoop (steps : ℤ) (tp : ℚ) : ℤ × ℚ :=
  if h : 0 < steps ∧ (min_transmissionPower : ℚ) < tp then tpDecLoop (steps - 1) (tp - 3)
  else (steps, tp)
termination_by steps.toNat
decreasing_by
  have h1 := h.1
  omega

/-- Source: `while (steps < 0 && transmissionPower < max_transmissionPower)
{ transmissionPower += 3; steps++; }` (lines 165-169). -/
def tpIncLoop (steps : ℤ) (tp : ℚ) : ℤ × ℚ :=
  if h : steps < 0 ∧ tp < (max_transmissionPower : ℚ) then tpIncLoop (steps + 1) (tp + 3)
  else (steps, tp)
termination_by (-steps).toNat
decreasing_by
  have h1 := h.1
  omega

/-- The three while-loops of `AdrImplementation` in source order, returning the final
(spreadingFactor, transmissionPower) pair: the spreading-factor loop consumes `steps`
first, its leftover drives the power-decrement loop, whose leftover drives the
power-increment loop. -/
def stepPolicy (steps sf : ℤ) (tp : ℚ) : ℤ × ℚ :=
  ((sfLoop steps sf).2,
   (tpIncLoop (tpDecLoop (sfLoop steps sf).1 tp).1 (tpDecLoop (sfLoop steps sf).1 tp).2).2)

/-! ### The decision algorithm (adr-component.cc lines 116-173) -/

/-- Source: `int steps = std::floor(margin_SNR / 3)` with
`margin_SNR = m_SNR - req_SNR - offset` and
`req_SNR = treshold[SfToDr(spreadingFactor)]` (lines 129-144).
The unchecked array read is total here via `getD 0`; the default is only reachable
when `SfToDr sf` is out of range, which is an out-of-bounds read in the source
(see `tresholdGet` and the C5 theorem). -/
noncomputable def adrSteps (tpA hA : Bool) (packetList : List (List ℚ)) (sf : ℤ) : ℤ :=
  ⌊(historySNR tpA hA packetList historyRange
      - (((tresholdGet (SfToDr sf)).getD 0 : ℚ) : ℝ) - ((offset : ℤ) : ℝ)) / 3⌋

/-- The final (spreadingFactor, transmissionPower) state of `AdrImplementation`
after the three adjustment loops (lines 116-169). -/
noncomputable def adrFinal (tpA hA : Bool) (packetList : List (List ℚ)) (sf : ℤ) (tp : ℚ) :
    ℤ × ℚ :=
  stepPolicy (adrSteps tpA hA packetList sf) sf tp

/-- Source: `void AdrComponent::AdrImplementation(int*, int*, Ptr<EndDeviceStatus>)`
(lines 116-173): the outputs written through the pointers,
`*newDataRate = SfToDr(spreadingFactor); *newTxPower = transmissionPower;`
(the latter truncates `double` to `int`). -/
noncomputable def AdrImplementation (tpA hA : Bool) (packetList : List (List ℚ))
    (sf : ℤ) (tp : ℚ) : ℤ × ℤ :=
  let r := adrFinal tpA hA packetList sf tp
  (SfToDr r.1, truncD r.2)

/-! ### The hook `BeforeSendingReply` (adr-component.cc lines 55-108) -/

/-- The staged reply state of a device (`EndDeviceStatus::m_reply`): the needs-reply
flag, the list of LinkAdrReq commands added to the frame header
(dataRate, txPower, enabled channels, repetitions), and the downlink /
unconfirmed-data-down markers. -/
structure ReplyStatus where
  needsReply : Bool
  linkAdrReqs : List (ℤ × ℤ × List ℤ × ℤ)
  isDownlink : Bool
  mTypeUnconfirmedDown : Bool
deriving DecidableEq

/-- The device snapshot consumed by `BeforeSendingReply`: the ADR bit of the latest
uplink frame header, the received-packet history (most recent last), the first
receive window spreading factor, the current transmission power, and the staged
reply. -/
structure DeviceStatus where
  adr : Bool
  history : List (List ℚ)
  firstWindowSF : ℤ
  txPower : ℚ
  reply : ReplyStatus

/-- Source: `void AdrComponent::BeforeSendingReply(...)` (lines 55-108): if the ADR
bit is set and at least `historyRange` packets were received, set the needs-reply
flag, run the ADR algorithm and stage a `LinkAdrReq(newDataRate, newTxPower, {1,2,3}, 1)`
downlink unconfirmed-data command; in every other case the device status is returned
unchanged. -/
noncomputable def BeforeSendingReply (s : DeviceStatus) : DeviceStatus :=
  if s.adr then
    if s.history.length < historyRange then s
    else
      let r := AdrImplementation tpAveraging historyAveraging s.history s.firstWindowSF s.txPower
      { s with reply :=
          { needsReply := true
            linkAdrReqs := s.reply.linkAdrReqs ++ [(r.1, r.2, [1, 2, 3], 1)]
            isDownlink := true
            mTypeUnconfirmedDown := true } }
  else s

/-! ### Lemmas about the three adjustment loops -/

lemma sfLoop_of_neg (steps sf : ℤ) (h : ¬(0 < steps ∧ min_spreadingFactor < sf)) :
    sfLoop steps sf = (steps, sf) := by
  conv_lhs => unfold sfLoop
  rw [dif_neg h]

lemma sfLoop_of_pos (steps sf : ℤ) (h : 0 < steps ∧ min_spreadingFactor < sf) :
    sfLoop steps sf = sfLoop (steps - 1) (sf - 1) := by
  conv_lhs => unfold sfLoop
  rw [dif_pos h]

lemma sfLoop_fst_nonneg (steps sf : ℤ) (h : 0 ≤ steps) : 0 ≤ (sfLoop steps sf).1 := by
  induction steps, sf using sfLoop.induct with
  | case1 steps sf hg ih =>
    rw [sfLoop_of_pos _ _ hg]
    exact ih (by omega)
  | case2 steps sf hg =>
    rw [sfLoop_of_neg _ _ hg]
    exact h

lemma sfLoop_fst_mono (steps₂ sf : ℤ) :
    ∀ steps₁, steps₁ ≤ steps₂ → (sfLoop steps₁ sf).1 ≤ (sfLoop steps₂ sf).1 := by
  induction steps₂, sf using sfLoop.induct with
  | case1 steps₂ sf hg ih =>
    intro steps₁ hle
    rw [sfLoop_of_pos _ _ hg]
    by_cases h1 : 0 < steps₁
    · rw [sfLoop_of_pos _ _ ⟨h1, hg.2⟩]
      exact ih (steps₁ - 1) (by omega)
    · rw [sfLoop_of_neg _ _ (by tauto)]
      have := sfLoop_fst_nonneg (steps₂ - 1) (sf - 1) (by omega)
      omega
  | case2 steps₂ sf hg =>
    intro steps₁ hle
    rw [sfLoop_of_neg _ _ hg]
    rw [sfLoop_of_neg _ _ (fun hc => hg ⟨lt_of_lt_of_le hc.1 hle, hc.2⟩)]
    exact hle

lemma sfLoop_snd_le (steps sf : ℤ) : (sfLoop steps sf).2 ≤ sf := by
  induction steps, sf using sfLoop.induct with
  | case1 steps sf hg ih =>
    rw [sfLoop_of_pos _ _ hg]
    omega
  | case2 steps sf hg =>
    rw [sfLoop_of_neg _ _ hg]

lemma sfLoop_snd_lb (steps sf : ℤ) : min sf min_spreadingFactor ≤ (sfLoop steps sf).2 := by
  induction steps, sf using sfLoop.induct with
  | case1 steps sf hg ih =>
    rw [sfLoop_of_pos _ _ hg]
    have h2 := hg.2
    omega
  | case2 steps sf hg =>
    rw [sfLoop_of_neg _ _ hg]
    omega

lemma sfLoop_snd_antitone (steps₂ sf : ℤ) :
    ∀ steps₁, steps₁ ≤ steps₂ → (sfLoop steps₂ sf).2 ≤ (sfLoop steps₁ sf).2 := by
  induction steps₂, sf using sfLoop.induct with
  | case1 steps₂ sf hg ih =>
    intro steps₁ hle
    rw [sfLoop_of_pos _ _ hg]
    by_cases h1 : 0 < steps₁
    · rw [sfLoop_of_pos steps₁ sf ⟨h1, hg.2⟩]
      exact ih (steps₁ - 1) (by omega)
    · rw [sfLoop_of_neg steps₁ sf (by tauto)]
      have := sfLoop_snd_le (steps₂ - 1) (sf - 1)
      omega
  | case2 steps₂ sf hg =>
    intro steps₁ hle
    rw [sfLoop_of_neg _ _ hg]
    rw [sfLoop_of_neg _ _ (fun hc => hg ⟨lt_of_lt_of_le hc.1 hle, hc.2⟩)]

lemma tpDecLoop_of_neg (steps : ℤ) (tp : ℚ)
    (h : ¬(0 < steps ∧ (min_transmissionPower : ℚ) < tp)) :
    tpDecLoop steps tp = (steps, tp) := by
  conv_lhs => unfold tpDecLoop
  rw [dif_neg h]

lemma tpDecLoop_of_pos (steps : ℤ) (tp : ℚ)
    (h : 0 < steps ∧ (min_transmissionPower : ℚ) < tp) :
    tpDecLoop steps tp = tpDecLoop (steps - 1) (tp - 3) := by
  conv_lhs => unfold tpDecLoop
  rw [dif_pos h]

lemma tpDecLoop_id_of_nonpos (steps : ℤ) (tp : ℚ) (h : steps ≤ 0) :
    tpDecLoop steps tp = (steps, tp) :=
  tpDecLoop_of_neg _ _ (fun hc => absurd hc.1 (by omega))

lemma tpDecLoop_fst_nonneg (steps : ℤ) (tp : ℚ) (h : 0 ≤ steps) :
    0 ≤ (tpDecLoop steps tp).1 := by
  induction steps, tp using tpDecLoop.induct with
  | case1 steps tp hg ih =>
    rw [tpDecLoop_of_pos _ _ hg]
    exact ih (by omega)
  | case2 steps tp hg =>
    rw [tpDecLoop_of_neg _ _ hg]
    exact h

lemma tpDecLoop_snd_le (steps : ℤ) (tp : ℚ) : (tpDecLoop steps tp).2 ≤ tp := by
  induction steps, tp using tpDecLoop.induct with
  | case1 steps tp hg ih =>
    rw [tpDecLoop_of_pos _ _ hg]
    linarith
  | case2 steps tp hg =>
    rw [tpDecLoop_of_neg _ _ hg]

lemma tpDecLoop_snd_antitone (steps₂ : ℤ) (tp : ℚ) :
    ∀ steps₁, steps₁ ≤ steps₂ → (tpDecLoop steps₂ tp).2 ≤ (tpDecLoop steps₁ tp).2 := by
  induction steps₂, tp using tpDecLoop.induct with
  | case1 steps₂ tp hg ih =>
    intro steps₁ hle
    rw [tpDecLoop_of_pos _ _ hg]
    by_cases h1 : 0 < steps₁
    · rw [tpDecLoop_of_pos steps₁ tp ⟨h1, hg.2⟩]
      exact ih (steps₁ - 1) (by omega)
    · rw [tpDecLoop_of_neg steps₁ tp (by tauto)]
      have := tpDecLoop_snd_le (steps₂ - 1) (tp - 3)
      linarith
  | case2 steps₂ tp hg =>
    intro steps₁ hle
    rw [tpDecLoop_of_neg _ _ hg]
    rw [tpDecLoop_of_neg _ _ (fun hc => hg ⟨lt_of_lt_of_le hc.1 hle, hc.2⟩)]

lemma tpDecLoop_inv (P : ℚ → Prop)
    (hstep : ∀ t, P t → (min_transmissionPower : ℚ) < t → P (t - 3)) (steps : ℤ) (tp : ℚ)
    (h0 : P tp) : P (tpDecLoop steps tp).2 := by
  induction steps, tp using tpDecLoop.induct with
  | case1 steps tp hg ih =>
    rw [tpDecLoop_of_pos _ _ hg]
    exact ih (hstep tp h0 hg.2)
  | case2 steps tp hg =>
    rw [tpDecLoop_of_neg _ _ hg]
    exact h0

lemma tpIncLoop_of_neg (steps : ℤ) (tp : ℚ)
    (h : ¬(steps < 0 ∧ tp < (max_transmissionPower : ℚ))) :
    tpIncLoop steps tp = (steps, tp) := by
  conv_lhs => unfold tpIncLoop
  rw [dif_neg h]

lemma tpIncLoop_of_pos (steps : ℤ) (tp : ℚ)
    (h : steps < 0 ∧ tp < (max_transmissionPower : ℚ)) :
    tpIncLoop steps tp = tpIncLoop (steps + 1) (tp + 3) := by
  conv_lhs => unfold tpIncLoop
  rw [dif_pos h]

lemma tpIncLoop_id_of_nonneg (steps : ℤ) (tp : ℚ) (h : 0 ≤ steps) :
    tpIncLoop steps tp = (steps, tp) :=
  tpIncLoop_of_neg _ _ (fun hc => absurd hc.1 (by omega))

lemma tpIncLoop_snd_ge (steps : ℤ) (tp : ℚ) : tp ≤ (tpIncLoop steps tp).2 := by
  induction steps, tp using tpIncLoop.induct with
  | case1 steps tp hg ih =>
    rw [tpIncLoop_of_pos _ _ hg]
    linarith
  | case2 steps tp hg =>
    rw [tpIncLoop_of_neg _ _ hg]

lemma tpIncLoop_snd_antitone (steps₁ : ℤ) (tp : ℚ) :
    ∀ steps₂, steps₁ ≤ steps₂ → (tpIncLoop steps₂ tp).2 ≤ (tpIncLoop steps₁ tp).2 := by
  induction steps₁, tp using tpIncLoop.induct with
  | case1 steps₁ tp hg ih =>
    intro steps₂ hle
    rw [tpIncLoop_of_pos _ _ hg]
    by_cases h2 : steps₂ < 0
    · rw [tpIncLoop_of_pos _ _ ⟨h2, hg.2⟩]
      exact ih (steps₂ + 1) (by omega)
    · rw [tpIncLoop_of_neg _ _ (by tauto)]
      have := tpIncLoop_snd_ge (steps₁ + 1) (tp + 3)
      linarith
  | case2 steps₁ tp hg =>
    intro steps₂ hle
    rw [tpIncLoop_of_neg _ _ hg]
    rw [tpIncLoop_of_neg _ _ (fun hc => hg ⟨lt_of_le_of_lt hle hc.1, hc.2⟩)]

lemma tpIncLoop_inv (P : ℚ → Prop)
    (hstep : ∀ t, P t → t < (max_transmissionPower : ℚ) → P (t + 3)) (steps : ℤ) (tp : ℚ)
    (h0 : P tp) : P (tpIncLoop steps tp).2 := by
  induction steps, tp using tpIncLoop.induct with
  | case1 steps tp hg ih =>
    rw [tpIncLoop_of_pos _ _ hg]
    exact ih (hstep tp h0 hg.2)
  | case2 steps tp hg =>
    rw [tpIncLoop_of_neg _ _ hg]
    exact h0

/-! ### Composite step-policy lemmas -/

lemma stepPolicy_sf_bounds (steps sf : ℤ) (tp : ℚ) (h7 : 7 ≤ sf) (h12 : sf ≤ 12) :
    7 ≤ (stepPolicy steps sf tp).1 ∧ (stepPolicy steps sf tp).1 ≤ 12 := by
  unfold stepPolicy
  have hlb := sfLoop_snd_lb steps sf
  have hub := sfLoop_snd_le steps sf
  unfold min_spreadingFactor at hlb
  constructor
  · omega
  · omega

/-- Membership in the reachable transmit-power lattice `{2, 5, 8, 11, 14}` together
with reachability from `tp` by 3 dB steps is preserved by both power loops. -/
lemma stepPolicy_tp_set (steps sf : ℤ) (tp : ℚ)
    (htp : tp = 2 ∨ tp = 5 ∨ tp = 8 ∨ tp = 11 ∨ tp = 14) :
    ((stepPolicy steps sf tp).2 = 2 ∨ (stepPolicy steps sf tp).2 = 5 ∨
     (stepPolicy steps sf tp).2 = 8 ∨ (stepPolicy steps sf tp).2 = 11 ∨
     (stepPolicy steps sf tp).2 = 14) ∧
    ∃ k : ℤ, (stepPolicy steps sf tp).2 = tp + 3 * k := by
  unfold stepPolicy
  set P : ℚ → Prop := fun t =>
    (t = 2 ∨ t = 5 ∨ t = 8 ∨ t = 11 ∨ t = 14) ∧ ∃ k : ℤ, t = tp + 3 * k with hP
  have hdec : ∀ t, P t → (min_transmissionPower : ℚ) < t → P (t - 3) := by
    intro t ht hgt
    unfold min_transmissionPower at hgt
    push_cast at hgt
    obtain ⟨hset, k, hk⟩ := ht
    refine ⟨?_, k - 1, by rw [hk]; push_cast; ring⟩
    rcases hset with h | h | h | h | h <;> rw [h] <;> rw [h] at hgt <;> norm_num at hgt ⊢
  have hinc : ∀ t, P t → t < (max_transmissionPower : ℚ) → P (t + 3) := by
    intro t ht hlt
    unfold max_transmissionPower at hlt
    push_cast at hlt
    obtain ⟨hset, k, hk⟩ := ht
    refine ⟨?_, k + 1, by rw [hk]; push_cast; ring⟩
    rcases hset with h | h | h | h | h <;> rw [h] <;> rw [h] at hlt <;> norm_num at hlt ⊢
  have h0 : P tp := ⟨htp, 0, by ring⟩
  have h1 : P (tpDecLoop (sfLoop steps sf).1 tp).2 := tpDecLoop_inv P hdec _ _ h0
  exact tpIncLoop_inv P hinc _ _ h1

lemma stepPolicy_antitone (steps₁ steps₂ sf : ℤ) (tp : ℚ) (hle : steps₁ ≤ steps₂) :
    (stepPolicy steps₂ sf tp).1 ≤ (stepPolicy steps₁ sf tp).1 ∧
    (stepPolicy steps₂ sf tp).2 ≤ (stepPolicy steps₁ sf tp).2 := by
  unfold stepPolicy
  refine ⟨sfLoop_snd_antitone steps₂ sf steps₁ hle, ?_⟩
  have hl : (sfLoop steps₁ sf).1 ≤ (sfLoop steps₂ sf).1 := sfLoop_fst_mono steps₂ sf steps₁ hle
  by_cases h2 : (sfLoop steps₂ sf).1 ≤ 0
  · -- both leftovers nonpositive: the decrement loops are identities
    rw [tpDecLoop_id_of_nonpos _ _ h2, tpDecLoop_id_of_nonpos _ _ (le_trans hl h2)]
    exact tpIncLoop_snd_antitone (sfLoop steps₁ sf).1 tp (sfLoop steps₂ sf).1 hl
  · push_neg at h2
    have hd2 : 0 ≤ (tpDecLoop (sfLoop steps₂ sf).1 tp).1 :=
      tpDecLoop_fst_nonneg _ _ (by omega)
    rw [tpIncLoop_id_of_nonneg _ _ hd2]
    by_cases h1 : (sfLoop steps₁ sf).1 ≤ 0
    · -- run 1 only raises the power, run 2 only lowers it
      rw [tpDecLoop_id_of_nonpos _ _ h1]
      have hge := tpIncLoop_snd_ge (sfLoop steps₁ sf).1 tp
      have hle2 := tpDecLoop_snd_le (sfLoop steps₂ sf).1 tp
      linarith
    · push_neg at h1
      have hd1 : 0 ≤ (tpDecLoop (sfLoop steps₁ sf).1 tp).1 :=
        tpDecLoop_fst_nonneg _ _ (by omega)
      rw [tpIncLoop_id_of_nonneg _ _ hd1]
      exact tpDecLoop_snd_antitone (sfLoop steps₂ sf).1 tp (sfLoop steps₁ sf).1 hl

lemma truncD_mono (q₁ q₂ : ℚ) (h : q₁ ≤ q₂) : truncD q₁ ≤ truncD q₂ := by
  unfold truncD
  by_cases h1 : 0 ≤ q₁
  · rw [if_pos h1, if_pos (le_trans h1 h)]
    exact Int.floor_le_floor h
  · rw [if_neg h1]
    by_cases h2 : 0 ≤ q₂
    · rw [if_pos h2]
      have ha : ⌈q₁⌉ ≤ 0 := Int.ceil_le.mpr (by push_neg at h1; push_cast; linarith)
      have hb : (0 : ℤ) ≤ ⌊q₂⌋ := Int.le_floor.mpr (by push_cast; linarith)
      omega
    · rw [if_neg h2]
      exact Int.ceil_le_ceil h

/-! ### Lemmas about the SNR estimation layer -/

lemma logb_B_lt_six : Real.logb 10 ((B : ℤ) : ℝ) < 6 := by
  have h1 : ((B : ℤ) : ℝ) < 10 ^ (6 : ℕ) := by unfold B; norm_num
  have h2 : Real.logb 10 ((B : ℤ) : ℝ) < Real.logb 10 ((10 : ℝ) ^ (6 : ℕ)) := by
    apply Real.logb_lt_logb (by norm_num) (by unfold B; norm_num) h1
  have h3 : Real.logb 10 ((10 : ℝ) ^ (6 : ℕ)) = 6 := by
    rw [Real.logb_pow]
    simp [Real.logb_self_eq_one]
  linarith

lemma TxPowerToSNR_add (x d : ℝ) : TxPowerToSNR (x + d) = TxPowerToSNR x + d := by
  unfold TxPowerToSNR
  ring

lemma TxPowerToSNR_lt (x y : ℝ) (h : x < y) : TxPowerToSNR x < TxPowerToSNR y := by
  unfold TxPowerToSNR
  linarith

/-- The additive constant of the SNR conversion, `174 - 10 log10(B) - NF`, is positive
(it is about `117.03` dB), hence `TxPowerToSNR x ≠ x` and in particular
`TxPowerToSNR 0 ≠ 0`. -/
lemma TxPowerToSNR_gt (x : ℝ) : x < TxPowerToSNR x := by
  unfold TxPowerToSNR
  have h1 := logb_B_lt_six
  have h2 : ((NF : ℤ) : ℝ) = 6 := by unfold NF; norm_num
  linarith

lemma foldq_max_ge (l : List ℚ) : ∀ a : ℚ, a ≤ l.foldl (fun mx r => if mx < r then r else mx) a := by
  induction l with
  | nil => intro a; exact le_refl a
  | cons b l ih =>
    intro a
    have h1 : a ≤ if a < b then b else a := by split <;> [linarith; exact le_refl a]
    calc a ≤ if a < b then b else a := h1
    _ ≤ _ := ih _

lemma foldq_max_const (l : List ℚ) : ∀ a : ℚ, (∀ r ∈ l, r < a) →
    l.foldl (fun mx r => if mx < r then r else mx) a = a := by
  induction l with
  | nil => intro a _; rfl
  | cons b l ih =>
    intro a h
    have hb : b < a := h b (by simp)
    have h1 : (if a < b then b else a) = a := by rw [if_neg (by linarith)]
    rw [List.foldl_cons, h1]
    exact ih a (fun r hr => h r (by simp [hr]))

lemma foldr_max_ge (tpA : Bool) (l : List (List ℚ)) :
    ∀ a : ℝ, a ≤ l.foldl (fun mx p => if mx < snrOfPacket tpA p then snrOfPacket tpA p else mx) a := by
  induction l with
  | nil => intro a; exact le_refl a
  | cons b l ih =>
    intro a
    have h1 : a ≤ if a < snrOfPacket tpA b then snrOfPacket tpA b else a := by
      split <;> [linarith; exact le_refl a]
    calc a ≤ if a < snrOfPacket tpA b then snrOfPacket tpA b else a := h1
    _ ≤ _ := ih _

lemma foldr_max_const (tpA : Bool) (l : List (List ℚ)) : ∀ a : ℝ,
    (∀ p ∈ l, snrOfPacket tpA p < a) →
    l.foldl (fun mx p => if mx < snrOfPacket tpA p then snrOfPacket tpA p else mx) a = a := by
  induction l with
  | nil => intro a _; rfl
  | cons b l ih =>
    intro a h
    have hb : snrOfPacket tpA b < a := h b (by simp)
    have h1 : (if a < snrOfPacket tpA b then snrOfPacket tpA b else a) = a := by
      rw [if_neg (by linarith)]
    rw [List.foldl_cons, h1]
    exact ih a (fun p hp => h p (by simp [hp]))

/-- The second component of the `GetAverageSNR` loop state after the whole loop is the
per-packet SNR of the last packet visited. -/
lemma snrSumLoop_snd_append (tpA : Bool) (l : List (List ℚ)) (x : List ℚ) (a : ℝ × ℝ) :
    ((l ++ [x]).foldl (fun acc p => (acc.1 + snrOfPacket tpA p, snrOfPacket tpA p)) a).2 =
      snrOfPacket tpA x := by
  rw [List.foldl_append]
  rfl

lemma snrSumLoop_snd (tpA : Bool) (w : List (List ℚ)) (hw : w ≠ []) :
    (snrSumLoop tpA w).2 = snrOfPacket tpA (w.getLast hw) := by
  unfold snrSumLoop
  conv_lhs => rw [← List.dropLast_append_getLast hw]
  exact snrSumLoop_snd_append tpA w.dropLast (w.getLast hw) (0, 0)

lemma sum_map_add (l : List ℚ) (d : ℚ) :
    (l.map (fun x => x + d)).sum = l.sum + l.length * d := by
  induction l with
  | nil => simp
  | cons a l ih => simp [ih]; ring

/-- Raising every reported power of a nonempty gateway list by `d` raises the per-packet
SNR by exactly `d` under the average gateway-aggregation policy. -/
lemma snrOfPacket_map_add (gw : List ℚ) (d : ℚ) (hne : gw ≠ []) :
    snrOfPacket true (gw.map (fun x => x + d)) = snrOfPacket true gw + (d : ℝ) := by
  have hlen : (gw.length : ℚ) ≠ 0 := by
    simp [List.length_eq_zero]
    exact hne
  have havg : GetAverageTxFromGateways (gw.map (fun x => x + d)) =
      GetAverageTxFromGateways gw + d := by
    unfold GetAverageTxFromGateways
    rw [sum_map_add, List.length_map]
    field_simp
    ring
  unfold snrOfPacket GetReceivedPower
  rw [if_pos rfl, if_pos rfl, havg]
  push_cast
  exact TxPowerToSNR_add _ _

/-- A single-gateway packet under the average gateway policy: the per-packet SNR is the
conversion applied to the one reported power. -/
lemma snrOfPacket_single (q : ℚ) : snrOfPacket true [q] = TxPowerToSNR ((q : ℚ) : ℝ) := by
  have havg : GetAverageTxFromGateways [q] = q := by
    unfold GetAverageTxFromGateways
    norm_num
  unfold snrOfPacket GetReceivedPower
  rw [if_pos rfl, havg]

/-- Raising every reported power of every packet by `d` raises the (buggy) history
average by `d / historyRange`: the source divides only the last visited per-packet SNR
by the window size. -/
lemma getAverageSNR_map_add (hist : List (List ℚ)) (d : ℚ) (h0 : hist ≠ [])
    (hne : ∀ gw ∈ hist, gw ≠ []) :
    GetAverageSNR true (hist.map (fun gw => gw.map (fun x => x + d))) historyRange =
      GetAverageSNR true hist historyRange + (d : ℝ) / (historyRange : ℝ) := by
  have hw : window hist historyRange ≠ [] := by
    unfold window
    rw [Ne, List.take_eq_nil_iff]
    push_neg
    constructor
    · unfold historyRange; omega
    · simpa using h0
  have hmap : window (hist.map (fun gw => gw.map (fun x => x + d))) historyRange =
      (window hist historyRange).map (fun gw => gw.map (fun x => x + d)) := by
    unfold window
    rw [← List.map_reverse, List.map_take]
  have hlast_mem : (window hist historyRange).getLast hw ∈ hist := by
    have h1 : (window hist historyRange).getLast hw ∈ window hist historyRange :=
      List.getLast_mem hw
    unfold window at h1
    exact List.mem_reverse.mp (List.take_subset _ _ h1)
  have hsplit : (window hist historyRange).map (fun gw => gw.map (fun x => x + d)) =
      ((window hist historyRange).dropLast.map (fun gw => gw.map (fun x => x + d))) ++
        [((window hist historyRange).getLast hw).map (fun x => x + d)] := by
    conv_lhs => rw [← List.dropLast_append_getLast hw]
    rw [List.map_append]
    rfl
  have h2 : (snrSumLoop true ((window hist historyRange).map
      (fun gw => gw.map (fun x => x + d)))).2 =
      snrOfPacket true (((window hist historyRange).getLast hw).map (fun x => x + d)) := by
    unfold snrSumLoop
    rw [hsplit]
    exact snrSumLoop_snd_append true _ _ _
  unfold GetAverageSNR
  rw [hmap, h2, snrSumLoop_snd true _ hw,
    snrOfPacket_map_add _ d (hne _ hlast_mem), add_div]

/-! ### Claim theorems -/

/-- C1: the claim states `currentDataRate = 12 - currentSpreadingFactor` and that the
staged data rate is `12 - finalSpreadingFactor`, so spreading factor 7 would give data
rate 5 and required SNR `-7.5` dB.  The function `SfToDr` of the source computes `sf - 7` instead:
at spreading factor 7 the code uses data rate 0 and required SNR `treshold[0] = -20` dB,
contradicting both the claim and the comments in the code itself (which say lowering the SF
raises the data rate). -/
theorem sfToDr_is_sf_minus_seven :
    SfToDr 7 = 0 ∧ SfToDr 7 ≠ 12 - 7 ∧
    tresholdGet (SfToDr 7) = some (-20) ∧ tresholdGet (12 - 7) = some (-15/2) := by
  refine ⟨by norm_num [SfToDr], by norm_num [SfToDr], ?_, ?_⟩
  · norm_num [SfToDr, tresholdGet, treshold]
  · norm_num [tresholdGet, treshold, Int.toNat_ofNat]
    rfl

/-- C2: the claim states `GetAverageSNR` returns the arithmetic mean of the per-packet
SNRs over the window.  On a history of 20 identical packets (one gateway, 0 dBm) the
mean equals the common per-packet SNR, but the source divides only the last visited
per-packet SNR by the window size, returning a 20-fold smaller value. -/
theorem getAverageSNR_is_not_the_mean :
    GetAverageSNR true (List.replicate 20 [(0 : ℚ)]) historyRange =
      snrOfPacket true [(0 : ℚ)] / 20 ∧
    GetAverageSNR true (List.replicate 20 [(0 : ℚ)]) historyRange ≠
      snrOfPacket true [(0 : ℚ)] := by
  have hwin : window (List.replicate 20 [(0 : ℚ)]) historyRange =
      List.replicate 19 [(0 : ℚ)] ++ [[(0 : ℚ)]] := by decide
  have h2 : (snrSumLoop true (window (List.replicate 20 [(0 : ℚ)]) historyRange)).2 =
      snrOfPacket true [(0 : ℚ)] := by
    unfold snrSumLoop
    rw [hwin]
    exact snrSumLoop_snd_append true _ _ _
  have hval : GetAverageSNR true (List.replicate 20 [(0 : ℚ)]) historyRange =
      snrOfPacket true [(0 : ℚ)] / 20 := by
    unfold GetAverageSNR
    rw [h2]
    norm_num [historyRange]
  refine ⟨hval, ?_⟩
  rw [hval]
  have hpos : 0 < snrOfPacket true [(0 : ℚ)] := by
    rw [snrOfPacket_single]
    have := TxPowerToSNR_gt ((0 : ℚ) : ℝ)
    push_cast at this ⊢
    linarith
  intro hc
  nlinarith

/-- C3: the claim states that under the max gateway policy the per-packet SNR equals
the thermal-noise conversion applied exactly once to the maximum reported power.
The source applies `TxPowerToSNR` twice (`GetReceivedPower` already converts in its
max branch, and the history loop converts again), and its running maximum is floored
at `min_transmissionPower`, so a single report of `-80` dBm yields a "maximum" of 2. -/
theorem maxPolicy_converts_twice :
    snrOfPacket false [(10 : ℚ)] = TxPowerToSNR (TxPowerToSNR 10) ∧
    TxPowerToSNR (TxPowerToSNR 10) ≠ TxPowerToSNR 10 ∧
    GetMaxTxFromGateways [(-80 : ℚ)] = 2 := by
  refine ⟨?_, ?_, by decide⟩
  · have hmax : GetMaxTxFromGateways [(10 : ℚ)] = 10 := by decide
    unfold snrOfPacket GetReceivedPower
    rw [if_neg (by simp), hmax]
    norm_num
  · exact ne_of_gt (TxPowerToSNR_gt _)

/-- C4: the claim states the average gateway-aggregation path yields a defined
fail-soft fallback on an empty gateway report list.  The source has no guard: it
computes `sum / gwList.size() = 0.0 / 0`, an undefined (NaN) value, so no fallback
value is produced (while any nonempty list is averaged normally). -/
theorem averageTx_empty_is_undefined :
    GetAverageTxFromGatewaysChecked [] = none ∧
    GetAverageTxFromGatewaysChecked [(-80 : ℚ)] = some (-80) := by
  constructor
  · rfl
  · norm_num [GetAverageTxFromGatewaysChecked]

/-- C5: the claim states the index into the 6-entry required-SNR table is clamped to
`0..5`.  The source indexes with `SfToDr(sf) = sf - 7` unguarded: a spreading factor
of 13 from the collaborator produces index 6, an out-of-bounds read of the 6-entry
table, not a clamped access. -/
theorem treshold_index_is_unclamped :
    SfToDr 13 = 6 ∧ tresholdGet (SfToDr 13) = none ∧ treshold.length = 6 := by
  decide

/-- C6: `BeforeSendingReply` sets the needs-reply flag and stages a downlink command
(appending exactly one LinkAdrReq) if and only if the ADR bit of the latest uplink is
set and the history holds at least `historyRange` packets; in every other case the
device status is returned unchanged. -/
theorem beforeSendingReply_stages_iff (s : DeviceStatus) :
    (((BeforeSendingReply s).reply.needsReply = true ∧
      (BeforeSendingReply s).reply.linkAdrReqs.length = s.reply.linkAdrReqs.length + 1) ↔
      (s.adr = true ∧ historyRange ≤ s.history.length)) ∧
    (¬(s.adr = true ∧ historyRange ≤ s.history.length) → BeforeSendingReply s = s) := by
  unfold BeforeSendingReply
  cases ha : s.adr with
  | false => simp
  | true =>
    rw [if_pos rfl]
    by_cases hl : s.history.length < historyRange
    · rw [if_pos hl]
      constructor
      · constructor
        · rintro ⟨h1, h2⟩
          omega
        · rintro ⟨h1, h2⟩
          exact absurd h2 (by omega)
      · intro h
        rfl
    · rw [if_neg hl]
      push_neg at hl
      constructor
      · simp [hl]
      · intro hc
        exact absurd ⟨rfl, hl⟩ hc

/-- Witness for C6 at a concrete device status: ADR bit set, 20-packet history. -/
theorem beforeSendingReply_stages_iff_witness :
    (((BeforeSendingReply
        ⟨true, List.replicate 20 [(0 : ℚ)], 7, 14, ⟨false, [], false, false⟩⟩).reply.needsReply
          = true ∧
      (BeforeSendingReply
        ⟨true, List.replicate 20 [(0 : ℚ)], 7, 14, ⟨false, [], false, false⟩⟩).reply.linkAdrReqs.length
          = (ReplyStatus.mk false [] false false).linkAdrReqs.length + 1) ↔
      (true = true ∧ historyRange ≤ (List.replicate 20 [(0 : ℚ)]).length)) ∧
    (¬(true = true ∧ historyRange ≤ (List.replicate 20 [(0 : ℚ)]).length) →
      BeforeSendingReply ⟨true, List.replicate 20 [(0 : ℚ)], 7, 14, ⟨false, [], false, false⟩⟩ =
        ⟨true, List.replicate 20 [(0 : ℚ)], 7, 14, ⟨false, [], false, false⟩⟩) :=
  beforeSendingReply_stages_iff ⟨true, List.replicate 20 [(0 : ℚ)], 7, 14, ⟨false, [], false, false⟩⟩

/-- C7: from any device snapshot with spreading factor in `[7, 12]` and transmit power
on the 3 dB lattice `{2, 5, 8, 11, 14}`, the decision ends with spreading factor in
`[7, 12]` and transmit power in `[2, 14]`, reached from the initial power only by
multiples of 3 dB; leftover steps beyond the bounds are discarded. -/
theorem adr_decision_bounds (tpA hA : Bool) (hist : List (List ℚ)) (sf : ℤ) (tp : ℚ)
    (h7 : 7 ≤ sf) (h12 : sf ≤ 12)
    (htp : tp = 2 ∨ tp = 5 ∨ tp = 8 ∨ tp = 11 ∨ tp = 14) :
    7 ≤ (adrFinal tpA hA hist sf tp).1 ∧ (adrFinal tpA hA hist sf tp).1 ≤ 12 ∧
    2 ≤ (adrFinal tpA hA hist sf tp).2 ∧ (adrFinal tpA hA hist sf tp).2 ≤ 14 ∧
    ∃ k : ℤ, (adrFinal tpA hA hist sf tp).2 = tp + 3 * k := by
  unfold adrFinal
  obtain ⟨hb1, hb2⟩ := stepPolicy_sf_bounds (adrSteps tpA hA hist sf) sf tp h7 h12
  obtain ⟨hset, hk⟩ := stepPolicy_tp_set (adrSteps tpA hA hist sf) sf tp htp
  refine ⟨hb1, hb2, ?_, ?_, hk⟩
  · rcases hset with h | h | h | h | h <;> rw [h] <;> norm_num
  · rcases hset with h | h | h | h | h <;> rw [h] <;> norm_num

/-- Witness for C7: default policies, 20-packet history, SF 7, 14 dBm. -/
theorem adr_decision_bounds_witness :
    7 ≤ (adrFinal true true (List.replicate 20 [(0 : ℚ)]) 7 14).1 ∧
    (adrFinal true true (List.replicate 20 [(0 : ℚ)]) 7 14).1 ≤ 12 ∧
    2 ≤ (adrFinal true true (List.replicate 20 [(0 : ℚ)]) 7 14).2 ∧
    (adrFinal true true (List.replicate 20 [(0 : ℚ)]) 7 14).2 ≤ 14 ∧
    ∃ k : ℤ, (adrFinal true true (List.replicate 20 [(0 : ℚ)]) 7 14).2 = 14 + 3 * k :=
  adr_decision_bounds true true (List.replicate 20 [(0 : ℚ)]) 7 14
    (by norm_num) (by norm_num) (by norm_num)

/-- C8: with the default policies, raising every reported power (hence every
per-packet SNR estimate) by a constant `d > 0` while keeping the history shape and the
current parameters fixed never yields a higher final spreading factor or a higher final
transmit power. -/
theorem adr_decision_monotone (hist : List (List ℚ)) (d : ℚ) (sf : ℤ) (tp : ℚ)
    (hd : 0 < d) (hlen : historyRange ≤ hist.length)
    (hne : ∀ gw ∈ hist, gw ≠ ([] : List ℚ)) :
    (adrFinal tpAveraging historyAveraging
        (hist.map (fun gw => gw.map (fun x => x + d))) sf tp).1 ≤
      (adrFinal tpAveraging historyAveraging hist sf tp).1 ∧
    (adrFinal tpAveraging historyAveraging
        (hist.map (fun gw => gw.map (fun x => x + d))) sf tp).2 ≤
      (adrFinal tpAveraging historyAveraging hist sf tp).2 := by
  have h0 : hist ≠ [] := by
    intro hc
    rw [hc] at hlen
    norm_num [historyRange] at hlen
  have hshift := getAverageSNR_map_add hist d h0 hne
  have hsteps : adrSteps true true hist sf ≤
      adrSteps true true (hist.map (fun gw => gw.map (fun x => x + d))) sf := by
    unfold adrSteps historySNR
    rw [if_pos rfl, if_pos rfl, hshift]
    apply Int.floor_le_floor
    have hpos : 0 < (d : ℝ) / (historyRange : ℝ) := by
      apply div_pos
      · exact_mod_cast hd
      · norm_num [historyRange]
    linarith
  unfold adrFinal tpAveraging historyAveraging
  exact stepPolicy_antitone _ _ sf tp hsteps

/-- Witness for C8: 20 single-gateway packets at 0 dBm, raised by 1 dB. -/
theorem adr_decision_monotone_witness :
    (adrFinal tpAveraging historyAveraging
        ((List.replicate 20 [(0 : ℚ)]).map (fun gw => gw.map (fun x => x + 1))) 7 14).1 ≤
      (adrFinal tpAveraging historyAveraging (List.replicate 20 [(0 : ℚ)]) 7 14).1 ∧
    (adrFinal tpAveraging historyAveraging
        ((List.replicate 20 [(0 : ℚ)]).map (fun gw => gw.map (fun x => x + 1))) 7 14).2 ≤
      (adrFinal tpAveraging historyAveraging (List.replicate 20 [(0 : ℚ)]) 7 14).2 :=
  adr_decision_monotone (List.replicate 20 [(0 : ℚ)]) 1 7 14
    (by norm_num) (by norm_num [historyRange]) (by decide)

/-- C9: `GetMaxTxFromGateways` never returns less than `min_transmissionPower` (2 dBm),
because its running maximum starts there; if every gateway reports below 2 dBm the
result is 2 dBm, not the true maximum of the reports. -/
theorem getMaxTx_at_least_min_power (gwList : List ℚ) :
    (min_transmissionPower : ℚ) ≤ GetMaxTxFromGateways gwList ∧
    ((∀ r ∈ gwList, r < (min_transmissionPower : ℚ)) →
      GetMaxTxFromGateways gwList = (min_transmissionPower : ℚ)) := by
  unfold GetMaxTxFromGateways
  exact ⟨foldq_max_ge gwList _, fun h => foldq_max_const gwList _ h⟩

/-- Witness for C9: a single gateway reporting `-80` dBm. -/
theorem getMaxTx_at_least_min_power_witness :
    (min_transmissionPower : ℚ) ≤ GetMaxTxFromGateways [(-80 : ℚ)] ∧
    GetMaxTxFromGateways [(-80 : ℚ)] = (min_transmissionPower : ℚ) :=
  ⟨(getMaxTx_at_least_min_power [(-80 : ℚ)]).1,
   (getMaxTx_at_least_min_power [(-80 : ℚ)]).2
     (by norm_num [min_transmissionPower])⟩

/-- C10: `GetMaxSNR` never returns less than `TxPowerToSNR(min_transmissionPower)`
(about 119 dB), because its running maximum starts there; a window in which every
per-packet SNR lies below that floor yields the floor, not the true window maximum. -/
theorem getMaxSNR_at_least_floor (tpA : Bool) (hist : List (List ℚ)) :
    TxPowerToSNR ((min_transmissionPower : ℤ) : ℝ) ≤ GetMaxSNR tpA hist historyRange ∧
    ((∀ p ∈ window hist historyRange,
        snrOfPacket tpA p < TxPowerToSNR ((min_transmissionPower : ℤ) : ℝ)) →
      GetMaxSNR tpA hist historyRange = TxPowerToSNR ((min_transmissionPower : ℤ) : ℝ)) := by
  unfold GetMaxSNR
  exact ⟨foldr_max_ge tpA _ _, fun h => foldr_max_const tpA _ _ h⟩

/-- Witness for C10: 20 single-gateway packets at 0 dBm, all below the 2 dBm floor. -/
theorem getMaxSNR_at_least_floor_witness :
    TxPowerToSNR ((min_transmissionPower : ℤ) : ℝ) ≤
      GetMaxSNR true (List.replicate 20 [(0 : ℚ)]) historyRange ∧
    GetMaxSNR true (List.replicate 20 [(0 : ℚ)]) historyRange =
      TxPowerToSNR ((min_transmissionPower : ℤ) : ℝ) := by
  have hbelow : ∀ p ∈ window (List.replicate 20 [(0 : ℚ)]) historyRange,
      snrOfPacket true p < TxPowerToSNR ((min_transmissionPower : ℤ) : ℝ) := by
    intro p hp
    have hwin : window (List.replicate 20 [(0 : ℚ)]) historyRange =
        List.replicate 20 [(0 : ℚ)] := by decide
    rw [hwin] at hp
    have hp0 : p = [(0 : ℚ)] := List.eq_of_mem_replicate hp
    rw [hp0, snrOfPacket_single]
    apply TxPowerToSNR_lt
    norm_num [min_transmissionPower]
  exact ⟨(getMaxSNR_at_least_floor true (List.replicate 20 [(0 : ℚ)])).1,
    (getMaxSNR_at_least_floor true (List.replicate 20 [(0 : ℚ)])).2 hbelow⟩
